import Mathlib

/-!
Verification of the wireit build engine against its natural-language
specification.

Each section shallowly embeds one component of the source:
 * `src/logging/default-logger.ts` — the summary percentage computation;
 * `src/fingerprint.ts` — fingerprint data, canonical serialization,
   equality, `compute`'s fully-tracked rule, and `difference`;
 * `src/execution/service.ts` — the service lifecycle state machine;
 * `src/fingerprint.ts` (second half, the watcher) — the watcher state
   machine;
 * `src/caching/github-actions-cache.ts` — the GitHub Actions cache
   service-down latch and the tarball size limit;
 * `src/analyzer.ts` — the depth-first cycle check and dependency sort.

JavaScript numbers are modelled as `ℚ` where division occurs, strings as
`String`, `undefined`-able values as `Option`, and thrown exceptions as
`Except` errors.  `localeCompare` is modelled as Lean's `String` order.
-/

namespace Wireit

/-! ## Summary logger percentage (src/logging/default-logger.ts 362-368)

```ts
private _calculatePercentage(part: number, whole: number): number {
  if (whole === 0) { return 0; }
  return Math.floor(part / whole) * 100;
}
```
The two counters are script counts, hence natural numbers; the division is
exact rational division and `Math.floor` is `Int.floor`. -/

def calculatePercentage (part whole : ℕ) : ℤ :=
  if whole = 0 then 0 else ⌊(part : ℚ) / (whole : ℚ)⌋ * 100

/-- Claim C8: for integers `0 ≤ part ≤ whole`, the summary logger's
percentage computation returns 0 when `whole` is 0, and otherwise
`Math.floor(part / whole) * 100`, which is 0 whenever `part < whole` and
100 whenever `part = whole`; it never returns a value strictly between
0 and 100. -/
theorem calculatePercentage_spec (part whole : ℕ) (h : part ≤ whole) :
    (whole = 0 → calculatePercentage part whole = 0) ∧
    (whole ≠ 0 →
      calculatePercentage part whole = ⌊(part : ℚ) / (whole : ℚ)⌋ * 100) ∧
    (part < whole → calculatePercentage part whole = 0) ∧
    (part = whole → whole ≠ 0 → calculatePercentage part whole = 100) ∧
    ¬(0 < calculatePercentage part whole ∧
        calculatePercentage part whole < 100) := by
  refine ⟨?_, ?_, ?_, ?_, ?_⟩
  · intro h0; simp [calculatePercentage, h0]
  · intro h0; simp [calculatePercentage, h0]
  · intro hlt
    have hw : whole ≠ 0 := by omega
    have hwq : (0 : ℚ) < (whole : ℚ) := by
      exact_mod_cast Nat.pos_of_ne_zero hw
    have hnonneg : (0 : ℚ) ≤ (part : ℚ) / (whole : ℚ) :=
      div_nonneg (by positivity) (le_of_lt hwq)
    have hlt1 : (part : ℚ) / (whole : ℚ) < 1 := by
      rw [div_lt_one hwq]
      exact_mod_cast hlt
    have hfloor : ⌊(part : ℚ) / (whole : ℚ)⌋ = 0 := by
      rw [Int.floor_eq_zero_iff]
      constructor
      · exact hnonneg
      · exact hlt1
    simp [calculatePercentage, hw, hfloor]
  · intro heq h0
    subst heq
    have hwq : (part : ℚ) ≠ 0 := by exact_mod_cast h0
    have : (part : ℚ) / (part : ℚ) = 1 := div_self hwq
    simp [calculatePercentage, h0, this]
  · intro ⟨hpos, hlt100⟩
    rcases Nat.lt_or_ge part whole with hlt | hge
    · have hw : whole ≠ 0 := by omega
      have hwq : (0 : ℚ) < (whole : ℚ) := by
        exact_mod_cast Nat.pos_of_ne_zero hw
      have hnonneg : (0 : ℚ) ≤ (part : ℚ) / (whole : ℚ) :=
        div_nonneg (by positivity) (le_of_lt hwq)
      have hlt1 : (part : ℚ) / (whole : ℚ) < 1 := by
        rw [div_lt_one hwq]
        exact_mod_cast hlt
      have hfloor : ⌊(part : ℚ) / (whole : ℚ)⌋ = 0 := by
        rw [Int.floor_eq_zero_iff]
        exact ⟨hnonneg, hlt1⟩
      have : calculatePercentage part whole = 0 := by
        simp [calculatePercentage, hw, hfloor]
      omega
    · have heq : part = whole := le_antisymm h hge
      subst heq
      by_cases h0 : part = 0
      · subst h0
        have : calculatePercentage 0 0 = 0 := by simp [calculatePercentage]
        omega
      · have hwq : (part : ℚ) ≠ 0 := by exact_mod_cast h0
        have hd : (part : ℚ) / (part : ℚ) = 1 := div_self hwq
        have : calculatePercentage part part = 100 := by
          simp [calculatePercentage, h0, hd]
        omega

/-- Witness for C8: the theorem applied at `part = 2`, `whole = 5`. -/
theorem calculatePercentage_spec_witness :
    (2 ≤ 5) ∧ (2 < 5 → calculatePercentage 2 5 = 0) :=
  ⟨by decide, (calculatePercentage_spec 2 5 (by decide)).2.2.1⟩

/-! ## Fingerprint data model (src/fingerprint.ts)

`FingerprintData` mirrors the interface of the same name, with fields in the
exact order of the object literal built by `Fingerprint.compute`; that order
is what `JSON.stringify` serializes, and the canonical string form is used
for equality and hashing.  JS maps (`files`, `dependencies`, `env`) are
modelled as association lists in object-key insertion order. -/

/-- The `clean` setting: `true`, `false` or `'if-file-deleted'`. -/
inductive CleanSetting
  | always
  | never
  | ifFileDeleted
deriving DecidableEq, Repr

structure FingerprintData where
  fullyTracked : Bool
  platform : String
  arch : String
  nodeVersion : String
  command : Option String
  extraArgs : List String
  clean : CleanSetting
  files : List (String × String)
  output : List String
  dependencies : List (String × String)
  /-- Field `service?.readyWhen.lineMatches`: `none` when there is no service
  config, `some none` when the service config has no line-match pattern. -/
  service : Option (Option String)
  env : List (String × String)
deriving DecidableEq, Repr

/-! ### Canonical JSON serialization (`Fingerprint.string`, JSON.stringify) -/

def hexDigit (n : Nat) : Char :=
  if n < 10 then Char.ofNat (48 + n) else Char.ofNat (87 + n)

def jsonEscapeChar (c : Char) : String :=
  if c = '"' then "\\\""
  else if c = '\\' then "\\\\"
  else if c = '\n' then "\\n"
  else if c = '\r' then "\\r"
  else if c = '\t' then "\\t"
  else if c.toNat = 8 then "\\b"
  else if c.toNat = 12 then "\\f"
  else if c.toNat < 32 then
    "\\u00" ++ String.mk [hexDigit (c.toNat / 16), hexDigit (c.toNat % 16)]
  else String.mk [c]

def jsonOfString (s : String) : String :=
  "\"" ++ String.join (s.data.map jsonEscapeChar) ++ "\""

def jsonArray (elems : List String) : String :=
  "[" ++ String.intercalate "," elems ++ "]"

def jsonObject (fields : List (String × String)) : String :=
  "\x7b" ++
    String.intercalate ","
      (fields.map fun p => jsonOfString p.1 ++ ":" ++ p.2) ++
  "\x7d"

def jsonOfBool (b : Bool) : String := if b then "true" else "false"

def CleanSetting.json : CleanSetting → String
  | .always => "true"
  | .never => "false"
  | .ifFileDeleted => "\"if-file-deleted\""

/-- The `JSON.stringify` of a fingerprint data object.  Properties whose value is
`undefined` (`command`, `service`) are omitted, exactly as `JSON.stringify`
omits them. -/
def FingerprintData.string (d : FingerprintData) : String :=
  jsonObject
    ([("fullyTracked", jsonOfBool d.fullyTracked),
      ("platform", jsonOfString d.platform),
      ("arch", jsonOfString d.arch),
      ("nodeVersion", jsonOfString d.nodeVersion)] ++
     (match d.command with
      | none => []
      | some c => [("command", jsonOfString c)]) ++
     [("extraArgs", jsonArray (d.extraArgs.map jsonOfString)),
      ("clean", d.clean.json),
      ("files", jsonObject (d.files.map fun p => (p.1, jsonOfString p.2))),
      ("output", jsonArray (d.output.map jsonOfString)),
      ("dependencies",
        jsonObject (d.dependencies.map fun p => (p.1, jsonOfString p.2)))] ++
     (match d.service with
      | none => []
      | some lineMatches =>
        [("service",
          jsonObject
            [("readyWhen",
              jsonObject
                (match lineMatches with
                 | none => []
                 | some s => [("lineMatches", jsonOfString s)]))])]) ++
     [("env", jsonObject (d.env.map fun p => (p.1, jsonOfString p.2)))])

/-- Method `Fingerprint.equal`: string equality of the canonical serialization. -/
def Fingerprint.equal (a b : FingerprintData) : Bool :=
  a.string == b.string

/-- Claim C7: fingerprint equality is string equality of the canonical JSON
serialization: it is reflexive, symmetric and transitive, and equal
fingerprints have identical canonical serializations. -/
theorem fingerprint_equal_equivalence :
    (∀ a b : FingerprintData,
      Fingerprint.equal a b = true ↔ a.string = b.string) ∧
    (∀ a : FingerprintData, Fingerprint.equal a a = true) ∧
    (∀ a b : FingerprintData,
      Fingerprint.equal a b = true → Fingerprint.equal b a = true) ∧
    (∀ a b c : FingerprintData,
      Fingerprint.equal a b = true → Fingerprint.equal b c = true →
        Fingerprint.equal a c = true) ∧
    (∀ a b : FingerprintData,
      Fingerprint.equal a b = true → a.string = b.string) := by
  have hiff : ∀ a b : FingerprintData,
      Fingerprint.equal a b = true ↔ a.string = b.string := by
    intro a b
    simp [Fingerprint.equal, beq_iff_eq]
  refine ⟨hiff, ?_, ?_, ?_, ?_⟩
  · intro a; exact (hiff a a).mpr rfl
  · intro a b h; exact (hiff b a).mpr ((hiff a b).mp h).symm
  · intro a b c hab hbc
    exact (hiff a c).mpr (((hiff a b).mp hab).trans ((hiff b c).mp hbc))
  · intro a b h; exact (hiff a b).mp h

/-- A sample fingerprint used by witnesses. -/
def sampleFingerprint : FingerprintData where
  fullyTracked := true
  platform := "linux"
  arch := "x64"
  nodeVersion := "v20.0.0"
  command := some "tsc"
  extraArgs := []
  clean := .always
  files := [("a.ts", "deadbeef")]
  output := ["a.js"]
  dependencies := []
  service := none
  env := []

/-- Witness for C7: the theorem's implications applied at
`sampleFingerprint`, with their hypotheses discharged concretely. -/
theorem fingerprint_equal_equivalence_witness :
    Fingerprint.equal sampleFingerprint sampleFingerprint = true ∧
    sampleFingerprint.string = sampleFingerprint.string :=
  ⟨fingerprint_equal_equivalence.2.1 sampleFingerprint,
   fingerprint_equal_equivalence.2.2.2.2 sampleFingerprint sampleFingerprint
     (fingerprint_equal_equivalence.2.1 sampleFingerprint)⟩

/-! ## `Fingerprint.compute` (src/fingerprint.ts 137-262)

`process.platform` / `process.arch` / `process.version` are ambient inputs,
modelled by `ProcessSnapshot`.  Hashing the globbed input files is I/O; its
result (relative path, sha256 hex digest) is a parameter, used only when the
script declares a non-empty `files` list, exactly as in the source.  The
dependency fingerprints parameter keeps, per entry, the fields the source
reads: the `cascade` flag, the dependency's reference string, whether its
fingerprint is fully tracked, and its (opaque) fingerprint hash. -/

structure ProcessSnapshot where
  platform : String
  arch : String
  nodeVersion : String
deriving DecidableEq, Repr

structure DepFingerprint where
  cascade : Bool
  key : String
  fullyTracked : Bool
  hash : String
deriving DecidableEq, Repr

/-- The configuration fields of a script that `Fingerprint.compute` reads. -/
structure ScriptConfig where
  command : Option String
  extraArgs : Option (List String)
  clean : CleanSetting
  /-- Field `files?.values`; `none` when the wireit config has no `files` list. -/
  files : Option (List String)
  output : Option (List String)
  /-- Field `service?.readyWhen.lineMatches`; `none` when not a service. -/
  service : Option (Option String)
  env : List (String × String)
deriving DecidableEq, Repr

inductive NotFullyTrackedReason
  | dependencyNotFullyTracked (dependency : String)
  | noFilesField
  | noOutputField
deriving DecidableEq, Repr

/-- The first dependency with `cascade` whose fingerprint is not fully
tracked (the loop at src/fingerprint.ts 145-160). -/
def notFullyTrackedDep (deps : List DepFingerprint) : Option String :=
  ((deps.filter (·.cascade)).find? (fun d => !d.fullyTracked)).map (·.key)

/-- The reason computation at src/fingerprint.ts 197-226: checked in order —
a not-fully-tracked cascaded dependency, then no command (always tracked),
then a missing `files` list, then service (tracked), then a missing
`output` list. -/
def notFullyTrackedReasonOf (script : ScriptConfig)
    (deps : List DepFingerprint) : Option NotFullyTrackedReason :=
  match notFullyTrackedDep deps with
  | some d => some (.dependencyNotFullyTracked d)
  | none =>
    if script.command.isNone then none
    else if script.files.isNone then some .noFilesField
    else if script.service.isSome then none
    else if script.output.isNone then some .noOutputField
    else none

/-- JS `Array.prototype.sort` with a key comparator (`localeCompare` on the
first component) is a stable sort; it is modelled by a stable insertion sort
over Lean's lexicographic order on the key's character list. -/
def sortByKey (l : List (String × String)) : List (String × String) :=
  l.insertionSort (fun a b => a.1.data ≤ b.1.data)

def Fingerprint.compute (proc : ProcessSnapshot) (script : ScriptConfig)
    (fileHashes : List (String × String)) (deps : List DepFingerprint) :
    FingerprintData × Option NotFullyTrackedReason :=
  let reason := notFullyTrackedReasonOf script deps
  ({ fullyTracked := reason.isNone
     platform := proc.platform
     arch := proc.arch
     nodeVersion := proc.nodeVersion
     command := script.command
     extraArgs := script.extraArgs.getD []
     clean := script.clean
     files :=
       sortByKey (match script.files with
                  | some (_ :: _) => fileHashes
                  | _ => [])
     output := script.output.getD []
     dependencies :=
       sortByKey ((deps.filter (·.cascade)).map fun d => (d.key, d.hash))
     service := script.service
     env := script.env }, reason)

/-- Claim C1, amended: `fullyTracked` is false exactly when some cascaded
dependency's fingerprint is not fully tracked, or the script has a command
but no `files` list, or it has a command and a `files` list but is not a
service and has no `output` list.  In particular a service with a command
but no `files` list is NOT fully tracked (the `files` check precedes the
service check in the source), and a script with no command is fully tracked
if and only if every cascaded dependency is fully tracked. -/
theorem compute_fullyTracked_iff (proc : ProcessSnapshot)
    (script : ScriptConfig) (fileHashes : List (String × String))
    (deps : List DepFingerprint) :
    ((Fingerprint.compute proc script fileHashes deps).1.fullyTracked = false ↔
      (∃ d ∈ deps, d.cascade = true ∧ d.fullyTracked = false) ∨
      (script.command.isSome ∧ script.files = none) ∨
      (script.command.isSome ∧ script.files.isSome ∧ script.service = none ∧
        script.output = none)) ∧
    (script.service.isSome → script.command.isSome → script.files = none →
      (Fingerprint.compute proc script fileHashes deps).1.fullyTracked =
        false) ∧
    (script.command = none →
      ((Fingerprint.compute proc script fileHashes deps).1.fullyTracked =
          true ↔
        ∀ d ∈ deps, d.cascade = true → d.fullyTracked = true)) := by
  have hdep : (notFullyTrackedDep deps).isSome ↔
      ∃ d ∈ deps, d.cascade = true ∧ d.fullyTracked = false := by
    rw [notFullyTrackedDep, Option.isSome_map', List.find?_isSome]
    constructor
    · rintro ⟨d, hmem, hnot⟩
      have := List.mem_filter.mp hmem
      exact ⟨d, this.1, by simpa using this.2, by simpa using hnot⟩
    · rintro ⟨d, hmem, hc, hnot⟩
      exact ⟨d, List.mem_filter.mpr ⟨hmem, by simpa using hc⟩,
        by simpa using hnot⟩
  have hmain :
      (Fingerprint.compute proc script fileHashes deps).1.fullyTracked =
          false ↔
        (∃ d ∈ deps, d.cascade = true ∧ d.fullyTracked = false) ∨
        (script.command.isSome ∧ script.files = none) ∨
        (script.command.isSome ∧ script.files.isSome ∧
          script.service = none ∧ script.output = none) := by
    show (notFullyTrackedReasonOf script deps).isNone = false ↔ _
    rw [notFullyTrackedReasonOf]
    rcases hfind : notFullyTrackedDep deps with _ | d
    · have hnodep : ¬∃ d ∈ deps, d.cascade = true ∧ d.fullyTracked = false := by
        rw [← hdep, hfind]; simp
      simp only [hnodep, false_or]
      rcases hcmd : script.command with _ | c
      · simp [hcmd]
      · rcases hfiles : script.files with _ | fs
        · simp [hcmd, hfiles]
        · rcases hsvc : script.service with _ | svc
          · rcases hout : script.output with _ | os
            · simp [hcmd, hfiles, hsvc, hout]
            · simp [hcmd, hfiles, hsvc, hout]
          · simp [hcmd, hfiles, hsvc]
    · have hyes : ∃ d ∈ deps, d.cascade = true ∧ d.fullyTracked = false := by
        rw [← hdep, hfind]; simp
      simp [hyes]
  refine ⟨hmain, ?_, ?_⟩
  · intro hsvc hcmd hfiles
    exact hmain.mpr (Or.inr (Or.inl ⟨hcmd, hfiles⟩))
  · intro hcmd
    constructor
    · intro htrue
      by_contra hbad
      push_neg at hbad
      obtain ⟨d, hmem, hc, hnf⟩ := hbad
      have : (Fingerprint.compute proc script fileHashes deps).1.fullyTracked =
          false :=
        hmain.mpr (Or.inl ⟨d, hmem, hc, by simpa using hnf⟩)
      rw [htrue] at this
      exact absurd this (by decide)
    · intro hall
      rcases hft :
        (Fingerprint.compute proc script fileHashes deps).1.fullyTracked with
        _ | _
      · rcases hmain.mp hft with ⟨d, hmem, hc, hnf⟩ | ⟨hsome, _⟩ | ⟨hsome, _⟩
        · have := hall d hmem hc
          rw [hnf] at this
          exact absurd this (by decide)
        · rw [hcmd] at hsome; exact absurd hsome (by simp)
        · rw [hcmd] at hsome; exact absurd hsome (by simp)
      · rfl

/-- A service with a command but no `files` list, as in
`{command: "serve", service: {}}`. -/
def serviceNoFilesScript : ScriptConfig where
  command := some "serve"
  extraArgs := none
  clean := .always
  files := none
  output := none
  service := some none
  env := []

/-- A no-command grouping script. -/
def groupingScript : ScriptConfig where
  command := none
  extraArgs := none
  clean := .always
  files := none
  output := none
  service := none
  env := []

/-- A cascaded dependency whose fingerprint is not fully tracked. -/
def untrackedDep : DepFingerprint where
  cascade := true
  key := "/pkg:dep"
  fullyTracked := false
  hash := "beef"

def sampleProc : ProcessSnapshot where
  platform := "linux"
  arch := "x64"
  nodeVersion := "v20.0.0"

/-- Counterexample for C1 as stated: a service with a command but no `files`
list is not fully tracked (refuting "a service with a command but no files
list is fully tracked"), and a no-command script with a not-fully-tracked
cascaded dependency is not fully tracked (refuting "a script with no command
is always fully tracked"). -/
theorem compute_fullyTracked_counterexample :
    (Fingerprint.compute sampleProc serviceNoFilesScript [] []).1.fullyTracked
        = false ∧
    (Fingerprint.compute sampleProc groupingScript []
        [untrackedDep]).1.fullyTracked = false := by
  constructor <;> rfl

/-- Witness for C1 (amended): the theorem applied to the service example and
the grouping example, discharging its hypotheses concretely. -/
theorem compute_fullyTracked_iff_witness :
    ((Fingerprint.compute sampleProc serviceNoFilesScript [] []).1.fullyTracked
        = false) ∧
    ((Fingerprint.compute sampleProc groupingScript [] []).1.fullyTracked =
        true ↔ ∀ d ∈ ([] : List DepFingerprint),
          d.cascade = true → d.fullyTracked = true) :=
  ⟨(compute_fullyTracked_iff sampleProc serviceNoFilesScript [] []).2.1
      (by decide) (by decide) (by decide),
   (compute_fullyTracked_iff sampleProc groupingScript [] []).2.2 (by decide)⟩

/-! ## `Fingerprint.difference` (src/fingerprint.ts 297-482)

The returned difference objects are modelled with their `name` and the
identifying `field` / `path` / `script` property; the `current` / `previous`
payloads carried by some variants are omitted, as no claim concerns them.
Note the source labels an added dependency `'dependency changed'`.  The two
`throw new Error(...)` statements are modelled as `Except.error` values. -/

structure FingerprintDifference where
  name : String
  diffField : Option String := none
  path : Option String := none
  script : Option String := none
deriving DecidableEq, Repr

inductive InternalFingerprintError
  | onlyFullyTrackedDiffered
  | noDifferenceFound
deriving DecidableEq, Repr

def joinSpace (l : List String) : String := String.intercalate " " l

/-- Accessor `data.service?.readyWhen.lineMatches`: optional chaining collapses a
missing service config and a service config with no pattern to the same
`undefined`. -/
def serviceLine (d : FingerprintData) : Option String := d.service.bind id

/-- The serialization `JSON.stringify(data.env)`. -/
def envJson (d : FingerprintData) : String :=
  jsonObject (d.env.map fun p => (p.1, jsonOfString p.2))

def keysOf (l : List (String × String)) : List String := l.map (·.1)

def lookupKey (l : List (String × String)) (k : String) : Option String :=
  (l.find? (fun p => p.1 == k)).map (·.2)

def Fingerprint.difference (c p : FingerprintData) :
    Except InternalFingerprintError (Option FingerprintDifference) :=
  if Fingerprint.equal c p then .ok none
  else if c.platform ≠ p.platform then
    .ok (some ⟨"environment", some "platform", none, none⟩)
  else if c.arch ≠ p.arch then
    .ok (some ⟨"environment", some "arch", none, none⟩)
  else if c.nodeVersion ≠ p.nodeVersion then
    .ok (some ⟨"environment", some "nodeVersion", none, none⟩)
  else if c.command ≠ p.command then
    .ok (some ⟨"config", some "command", none, none⟩)
  else if joinSpace c.extraArgs ≠ joinSpace p.extraArgs then
    .ok (some ⟨"config", some "extraArgs", none, none⟩)
  else if c.clean ≠ p.clean then
    .ok (some ⟨"config", some "clean", none, none⟩)
  else if joinSpace c.output ≠ joinSpace p.output then
    .ok (some ⟨"config", some "output", none, none⟩)
  else if serviceLine c ≠ serviceLine p then
    .ok (some ⟨"config", some "service", none, none⟩)
  else if envJson c ≠ envJson p then
    .ok (some ⟨"config", some "env", none, none⟩)
  else
    match (keysOf c.files).find? (fun k => !((keysOf p.files).contains k)) with
    | some k => .ok (some ⟨"file added", none, some k, none⟩)
    | none =>
    match (keysOf p.files).find? (fun k => !((keysOf c.files).contains k)) with
    | some k => .ok (some ⟨"file removed", none, some k, none⟩)
    | none =>
    match (keysOf c.files).find?
        (fun k => lookupKey c.files k != lookupKey p.files k) with
    | some k => .ok (some ⟨"file changed", none, some k, none⟩)
    | none =>
    match (keysOf c.dependencies).find?
        (fun k => !((keysOf p.dependencies).contains k)) with
    | some k => .ok (some ⟨"dependency changed", none, none, some k⟩)
    | none =>
    match (keysOf p.dependencies).find?
        (fun k => !((keysOf c.dependencies).contains k)) with
    | some k => .ok (some ⟨"dependency removed", none, none, some k⟩)
    | none =>
    match (keysOf c.dependencies).find?
        (fun k => lookupKey c.dependencies k != lookupKey p.dependencies k) with
    | some k => .ok (some ⟨"dependency changed", none, none, some k⟩)
    | none =>
    if c.fullyTracked ≠ p.fullyTracked then .error .onlyFullyTrackedDiffered
    else .error .noDifferenceFound

/-- The per-field checks of the claim, as an ordered list: platform, arch,
node version, command, extra arguments, clean, output, service config,
environment, files added/removed/changed, dependencies
added/removed/changed. -/
def specChecks (c p : FingerprintData) : List (Option FingerprintDifference) :=
  [if c.platform ≠ p.platform then
      some ⟨"environment", some "platform", none, none⟩ else none,
   if c.arch ≠ p.arch then
      some ⟨"environment", some "arch", none, none⟩ else none,
   if c.nodeVersion ≠ p.nodeVersion then
      some ⟨"environment", some "nodeVersion", none, none⟩ else none,
   if c.command ≠ p.command then
      some ⟨"config", some "command", none, none⟩ else none,
   if joinSpace c.extraArgs ≠ joinSpace p.extraArgs then
      some ⟨"config", some "extraArgs", none, none⟩ else none,
   if c.clean ≠ p.clean then
      some ⟨"config", some "clean", none, none⟩ else none,
   if joinSpace c.output ≠ joinSpace p.output then
      some ⟨"config", some "output", none, none⟩ else none,
   if serviceLine c ≠ serviceLine p then
      some ⟨"config", some "service", none, none⟩ else none,
   if envJson c ≠ envJson p then
      some ⟨"config", some "env", none, none⟩ else none,
   ((keysOf c.files).find? (fun k => !((keysOf p.files).contains k))).map
      (fun k => ⟨"file added", none, some k, none⟩),
   ((keysOf p.files).find? (fun k => !((keysOf c.files).contains k))).map
      (fun k => ⟨"file removed", none, some k, none⟩),
   ((keysOf c.files).find?
        (fun k => lookupKey c.files k != lookupKey p.files k)).map
      (fun k => ⟨"file changed", none, some k, none⟩),
   ((keysOf c.dependencies).find?
        (fun k => !((keysOf p.dependencies).contains k))).map
      (fun k => ⟨"dependency changed", none, none, some k⟩),
   ((keysOf p.dependencies).find?
        (fun k => !((keysOf c.dependencies).contains k))).map
      (fun k => ⟨"dependency removed", none, none, some k⟩),
   ((keysOf c.dependencies).find?
        (fun k =>
          lookupKey c.dependencies k != lookupKey p.dependencies k)).map
      (fun k => ⟨"dependency changed", none, none, some k⟩)]

/-- The first difference observed by the ordered checks. -/
def specFirstDifference (c p : FingerprintData) :
    Option FingerprintDifference :=
  (specChecks c p).findSome? id

theorem findSome?_of_skip {α : Type} :
    ∀ (n : ℕ) (l : List (Option α)) (a : α),
      (∀ o ∈ l.take n, o = none) → l[n]? = some (some a) →
      l.findSome? id = some a := by
  intro n
  induction n with
  | zero =>
    intro l a h1 h2
    cases l with
    | nil => simp at h2
    | cons x xs =>
      simp only [List.getElem?_cons_zero, Option.some_inj] at h2
      subst h2
      simp [List.findSome?_cons]
  | succ n ih =>
    intro l a h1 h2
    cases l with
    | nil => simp at h2
    | cons x xs =>
      have hx : x = none := h1 x (by simp)
      subst hx
      simp only [List.findSome?_cons, id]
      exact ih xs a (fun o ho => h1 o (by simp [ho])) (by simpa using h2)

/-- Claim C3, amended: `difference(previous)` returns `undefined` iff the
two fingerprints are (string-)equal; when they are unequal it returns the
first difference observed by the per-field checks in the fixed order
platform, arch, node version, command, extra arguments, clean, output,
service config, environment, files added/removed/changed, dependencies
added/removed/changed — where the list-valued `extraArgs` and `output`
fields are compared by their space-joined strings — and when no check
observes a difference it throws an internal error instead of returning.
For a dependency present now but not previously, the returned difference
names that dependency. -/
theorem difference_spec (c p : FingerprintData) :
    (Fingerprint.difference c p = .ok none ↔ c.string = p.string) ∧
    (c.string ≠ p.string →
      Fingerprint.difference c p =
        match specFirstDifference c p with
        | some d => .ok (some d)
        | none =>
          if c.fullyTracked ≠ p.fullyTracked then
            .error .onlyFullyTrackedDiffered
          else .error .noDifferenceFound) ∧
    (∀ k, c.string ≠ p.string →
      (∀ o ∈ (specChecks c p).take 12, o = none) →
      (keysOf c.dependencies).find?
          (fun kk => !((keysOf p.dependencies).contains kk)) = some k →
      Fingerprint.difference c p =
        .ok (some ⟨"dependency changed", none, none, some k⟩)) := by
  have hmain : c.string ≠ p.string →
      Fingerprint.difference c p =
        match specFirstDifference c p with
        | some d => .ok (some d)
        | none =>
          if c.fullyTracked ≠ p.fullyTracked then
            .error .onlyFullyTrackedDiffered
          else .error .noDifferenceFound := by
    intro hne
    have hbe : ¬(Fingerprint.equal c p = true) := by
      simpa [Fingerprint.equal, beq_iff_eq] using hne
    rcases eq_or_ne c.platform p.platform with h1 | h1
    rotate_left
    · simp [Fingerprint.difference, hbe, specFirstDifference, specChecks, h1]
    rcases eq_or_ne c.arch p.arch with h2 | h2
    rotate_left
    · simp [Fingerprint.difference, hbe, specFirstDifference, specChecks,
        h1, h2]
    rcases eq_or_ne c.nodeVersion p.nodeVersion with h3 | h3
    rotate_left
    · simp [Fingerprint.difference, hbe, specFirstDifference, specChecks,
        h1, h2, h3]
    rcases eq_or_ne c.command p.command with h4 | h4
    rotate_left
    · simp [Fingerprint.difference, hbe, specFirstDifference, specChecks,
        h1, h2, h3, h4]
    rcases eq_or_ne (joinSpace c.extraArgs) (joinSpace p.extraArgs) with h5 | h5
    rotate_left
    · simp [Fingerprint.difference, hbe, specFirstDifference, specChecks,
        h1, h2, h3, h4, h5]
    rcases eq_or_ne c.clean p.clean with h6 | h6
    rotate_left
    · simp [Fingerprint.difference, hbe, specFirstDifference, specChecks,
        h1, h2, h3, h4, h5, h6]
    rcases eq_or_ne (joinSpace c.output) (joinSpace p.output) with h7 | h7
    rotate_left
    · simp [Fingerprint.difference, hbe, specFirstDifference, specChecks,
        h1, h2, h3, h4, h5, h6, h7]
    rcases eq_or_ne (serviceLine c) (serviceLine p) with h8 | h8
    rotate_left
    · simp [Fingerprint.difference, hbe, specFirstDifference, specChecks,
        h1, h2, h3, h4, h5, h6, h7, h8]
    rcases eq_or_ne (envJson c) (envJson p) with h9 | h9
    rotate_left
    · simp [Fingerprint.difference, hbe, specFirstDifference, specChecks,
        h1, h2, h3, h4, h5, h6, h7, h8, h9]
    rcases hf1 : (keysOf c.files).find?
        (fun k => !decide (k ∈ keysOf p.files)) with _ | k1
    rotate_left
    · simp [Fingerprint.difference, hbe, specFirstDifference, specChecks,
        h1, h2, h3, h4, h5, h6, h7, h8, h9, hf1]
    rcases hf2 : (keysOf p.files).find?
        (fun k => !decide (k ∈ keysOf c.files)) with _ | k2
    rotate_left
    · simp [Fingerprint.difference, hbe, specFirstDifference, specChecks,
        h1, h2, h3, h4, h5, h6, h7, h8, h9, hf1, hf2]
    rcases hf3 : (keysOf c.files).find?
        (fun k => lookupKey c.files k != lookupKey p.files k) with _ | k3
    rotate_left
    · simp [Fingerprint.difference, hbe, specFirstDifference, specChecks,
        h1, h2, h3, h4, h5, h6, h7, h8, h9, hf1, hf2, hf3]
    rcases hd1 : (keysOf c.dependencies).find?
        (fun k => !decide (k ∈ keysOf p.dependencies)) with _ | k4
    rotate_left
    · simp [Fingerprint.difference, hbe, specFirstDifference, specChecks,
        h1, h2, h3, h4, h5, h6, h7, h8, h9, hf1, hf2, hf3, hd1]
    rcases hd2 : (keysOf p.dependencies).find?
        (fun k => !decide (k ∈ keysOf c.dependencies)) with _ | k5
    rotate_left
    · simp [Fingerprint.difference, hbe, specFirstDifference, specChecks,
        h1, h2, h3, h4, h5, h6, h7, h8, h9, hf1, hf2, hf3, hd1, hd2]
    rcases hd3 : (keysOf c.dependencies).find?
        (fun k =>
          lookupKey c.dependencies k != lookupKey p.dependencies k) with _ | k6
    rotate_left
    · simp [Fingerprint.difference, hbe, specFirstDifference, specChecks,
        h1, h2, h3, h4, h5, h6, h7, h8, h9, hf1, hf2, hf3, hd1, hd2, hd3]
    simp [Fingerprint.difference, hbe, specFirstDifference, specChecks,
      h1, h2, h3, h4, h5, h6, h7, h8, h9, hf1, hf2, hf3, hd1, hd2, hd3]
  refine ⟨?_, hmain, ?_⟩
  · constructor
    · intro h
      by_contra hne
      rw [hmain hne] at h
      rcases hsd : specFirstDifference c p with _ | d
      · rw [hsd] at h
        by_cases hft : c.fullyTracked ≠ p.fullyTracked
        · rw [if_pos hft] at h; exact Except.noConfusion h
        · rw [if_neg hft] at h; exact Except.noConfusion h
      · rw [hsd] at h
        simp at h
    · intro h
      have hbe : Fingerprint.equal c p = true := by
        simp [Fingerprint.equal, beq_iff_eq, h]
      simp [Fingerprint.difference, hbe]
  · intro k hne htake hfind
    rw [hmain hne]
    have hfind' : (keysOf c.dependencies).find?
        (fun kk => !decide (kk ∈ keysOf p.dependencies)) = some k := by
      simpa using hfind
    have hsd : specFirstDifference c p =
        some ⟨"dependency changed", none, none, some k⟩ := by
      apply findSome?_of_skip 12 _ _ htake
      simp [specChecks, hfind']
    rw [hsd]

/-- A fingerprint whose `extraArgs` joins to the same string as
`differenceArgsSplit`'s but whose serialization differs. -/
def differenceArgsJoined : FingerprintData :=
  { sampleFingerprint with extraArgs := ["a b"] }

def differenceArgsSplit : FingerprintData :=
  { sampleFingerprint with extraArgs := ["a", "b"] }

set_option maxRecDepth 8000 in
/-- Counterexample for C3 as stated: the fingerprints differ (so
`difference` must not return `undefined`), yet `difference` observes no
difference — the `extraArgs` lists `["a b"]` and `["a","b"]` are compared
via their space-joined strings — and throws an internal error, returning no
difference at all. -/
theorem difference_counterexample :
    differenceArgsJoined.string ≠ differenceArgsSplit.string ∧
    Fingerprint.difference differenceArgsJoined differenceArgsSplit =
      .error .noDifferenceFound := by
  constructor
  · decide
  · rfl

set_option maxRecDepth 8000 in
/-- Witness for C3 (amended): the theorem applied to a pair differing by one
added dependency, discharging the hypotheses concretely; the returned
difference names the added dependency. -/
theorem difference_spec_witness :
    Fingerprint.difference
        { sampleFingerprint with dependencies := [("/pkg:dep", "beef")] }
        sampleFingerprint =
      .ok (some ⟨"dependency changed", none, none, some "/pkg:dep"⟩) :=
  (difference_spec
      { sampleFingerprint with dependencies := [("/pkg:dep", "beef")] }
      sampleFingerprint).2.2 "/pkg:dep" (by decide) (by decide) (by decide)

/-! ## Service lifecycle (src/execution/service.ts)

`ServiceState` mirrors the tagged union of the same name (lines 19-72);
the `fingerprint` payloads are kept where the union carries them, the
`failure` payloads are kept as strings, and the child-process and deferred
payloads are omitted.  `ServiceStateId` is the `id` tag alone.  Each
private event handler of `ServiceScriptExecution` becomes one case of
`serviceStep` over the tags; a `throw unexpectedState(...)` leaves the
`_state` field unassigned, so it is modelled as keeping the state.  The
boolean produced by `serviceStep` records whether that handler invoked
`this._terminated.resolve`. -/

inductive ServiceStateId
  | initial
  | executingDeps
  | fingerprinting
  | stoppingAdoptee
  | unstarted
  | depsStarting
  | starting
  | started
  | stopping
  | stopped
  | failing
  | failed
  | detached
deriving DecidableEq, Repr, Fintype

inductive ServiceState
  | initial
  | executingDeps
  | fingerprinting
  | stoppingAdoptee (fingerprint : FingerprintData)
  | unstarted (fingerprint : FingerprintData)
  | depsStarting (fingerprint : FingerprintData)
  | starting (fingerprint : FingerprintData)
  | started (fingerprint : FingerprintData)
  | stopping
  | stopped
  | failing (failure : String)
  | failed (failure : String)
  | detached
deriving DecidableEq, Repr

def ServiceState.id : ServiceState → ServiceStateId
  | .initial => .initial
  | .executingDeps => .executingDeps
  | .fingerprinting => .fingerprinting
  | .stoppingAdoptee _ => .stoppingAdoptee
  | .unstarted _ => .unstarted
  | .depsStarting _ => .depsStarting
  | .starting _ => .starting
  | .started _ => .started
  | .stopping => .stopping
  | .stopped => .stopped
  | .failing _ => .failing
  | .failed _ => .failed
  | .detached => .detached

/-- The `fingerprint` getter (src/execution/service.ts 219-244): returns the
state's fingerprint in five states, `undefined` in five states, and throws
`unexpectedState` in `initial`, `executingDeps` and `fingerprinting`. -/
def serviceFingerprint (s : ServiceState) :
    Except String (Option FingerprintData) :=
  match s with
  | .stoppingAdoptee fp => .ok (some fp)
  | .unstarted fp => .ok (some fp)
  | .depsStarting fp => .ok (some fp)
  | .starting fp => .ok (some fp)
  | .started fp => .ok (some fp)
  | .stopping => .ok none
  | .stopped => .ok none
  | .failed _ => .ok none
  | .failing _ => .ok none
  | .detached => .ok none
  | .initial => .error "Unexpected service state initial"
  | .executingDeps => .error "Unexpected service state executingDeps"
  | .fingerprinting => .error "Unexpected service state fingerprinting"

/-- Claim C5: the fingerprint accessor yields a fingerprint exactly in
states stoppingAdoptee, unstarted, depsStarting, starting and started;
yields `undefined` exactly in stopping, stopped, failing, failed and
detached; and throws exactly in initial, executingDeps and
fingerprinting. -/
theorem serviceFingerprint_observable (s : ServiceState) :
    ((∃ fp, serviceFingerprint s = .ok (some fp)) ↔
      s.id = .stoppingAdoptee ∨ s.id = .unstarted ∨ s.id = .depsStarting ∨
      s.id = .starting ∨ s.id = .started) ∧
    (serviceFingerprint s = .ok none ↔
      s.id = .stopping ∨ s.id = .stopped ∨ s.id = .failing ∨
      s.id = .failed ∨ s.id = .detached) ∧
    ((∃ e, serviceFingerprint s = .error e) ↔
      s.id = .initial ∨ s.id = .executingDeps ∨ s.id = .fingerprinting) := by
  cases s <;> simp [serviceFingerprint, ServiceState.id]

/-- The events driving the service state machine.  `fingerprinted` is split
on the three outcomes of `_onFingerprinted`: no adoptee or an adoptee with
an equal fingerprint; an adoptee with a different fingerprint whose `detach`
hands over a child; and one whose `detach` returns `undefined` (in which
case the handler returns without changing state). -/
inductive ServiceEvent
  | execute
  | depsExecuted
  | depExecErr
  | fingerprintedMatching
  | fingerprintedMismatch
  | fingerprintedMismatchNoChild
  | adopteeStopped
  | start
  | depsStarted
  | depServiceExit
  | childStarted
  | childExited
  | abort
  | detach
deriving DecidableEq, Repr, Fintype

/-- One step of the service state machine; the boolean is true when the
handler resolves the `terminated` promise.  Events map to handlers as
follows: `execute` to `_execute`, `depsExecuted` to `_onDepsExecuted`,
`depExecErr` to `_onDepExecErr` (which resolves only the fingerprint
deferred, leaving the state), the three `fingerprinted*` events to
`_onFingerprinted`, `adopteeStopped` to `_onAdopteeStopped`, `start` to
`start()`, `depsStarted` to `_onDepsStarted`, `depServiceExit` to
`_onDepServiceExit`, `childStarted` to `_onChildStarted`, `childExited` to
`_onChildExited` (the only handler that resolves `terminated`), `abort` to
`_onAbort`, and `detach` to `detach()`. -/
def serviceStep (s : ServiceStateId) (e : ServiceEvent) :
    ServiceStateId × Bool :=
  match e, s with
  | .execute, .initial => (.executingDeps, false)
  | .execute, s => (s, false)
  | .depsExecuted, .executingDeps => (.fingerprinting, false)
  | .depsExecuted, s => (s, false)
  | .depExecErr, s => (s, false)
  | .fingerprintedMatching, .fingerprinting => (.unstarted, false)
  | .fingerprintedMatching, s => (s, false)
  | .fingerprintedMismatch, .fingerprinting => (.stoppingAdoptee, false)
  | .fingerprintedMismatch, s => (s, false)
  | .fingerprintedMismatchNoChild, s => (s, false)
  | .adopteeStopped, .stoppingAdoptee => (.unstarted, false)
  | .adopteeStopped, s => (s, false)
  | .start, .unstarted => (.depsStarting, false)
  | .start, s => (s, false)
  | .depsStarted, .depsStarting => (.starting, false)
  | .depsStarted, s => (s, false)
  | .depServiceExit, .started => (.failing, false)
  | .depServiceExit, s => (s, false)
  | .childStarted, .starting => (.started, false)
  | .childStarted, s => (s, false)
  | .childExited, .stopping => (.stopped, true)
  | .childExited, .started => (.failed, true)
  | .childExited, .failing => (.failed, true)
  | .childExited, s => (s, false)
  | .abort, .started => (.stopping, false)
  | .abort, .starting => (.stopping, false)
  | .abort, .initial => (.stopped, false)
  | .abort, .executingDeps => (.stopped, false)
  | .abort, .fingerprinting => (.stopped, false)
  | .abort, .stoppingAdoptee => (.stopped, false)
  | .abort, .unstarted => (.stopped, false)
  | .abort, .depsStarting => (.stopped, false)
  | .abort, s => (s, false)
  | .detach, .started => (.detached, false)
  | .detach, s => (s, false)

/-- Run a sequence of events, counting `terminated` resolutions. -/
def serviceRun : ServiceStateId → List ServiceEvent → ServiceStateId × ℕ
  | s, [] => (s, 0)
  | s, e :: es =>
    let step := serviceStep s e
    let rest := serviceRun step.1 es
    (rest.1, (if step.2 then 1 else 0) + rest.2)

theorem serviceStep_resolve_terminal :
    ∀ (s : ServiceStateId) (e : ServiceEvent), (serviceStep s e).2 = true →
      (serviceStep s e).1 = .stopped ∨ (serviceStep s e).1 = .failed := by
  decide

theorem serviceStep_absorbing :
    ∀ e : ServiceEvent,
      serviceStep .stopped e = (.stopped, false) ∧
      serviceStep .failed e = (.failed, false) := by
  decide

theorem serviceRun_of_terminal :
    ∀ (evs : List ServiceEvent),
      serviceRun .stopped evs = (.stopped, 0) ∧
      serviceRun .failed evs = (.failed, 0) := by
  intro evs
  induction evs with
  | nil => exact ⟨rfl, rfl⟩
  | cons e es ih =>
    have h := serviceStep_absorbing e
    constructor
    · show serviceRun .stopped (e :: es) = (.stopped, 0)
      rw [serviceRun, h.1]
      simp [ih.1]
    · show serviceRun .failed (e :: es) = (.failed, 0)
      rw [serviceRun, h.2]
      simp [ih.2]

theorem serviceRun_resolve_le_one :
    ∀ (evs : List ServiceEvent) (s : ServiceStateId),
      (serviceRun s evs).2 ≤ 1 := by
  intro evs
  induction evs with
  | nil => intro s; simp [serviceRun]
  | cons e es ih =>
    intro s
    rw [serviceRun]
    rcases hr : (serviceStep s e).2 with _ | _
    · simpa [hr] using ih (serviceStep s e).1
    · rcases serviceStep_resolve_terminal s e hr with h1 | h1
      · simp [hr, h1, (serviceRun_of_terminal es).1]
      · simp [hr, h1, (serviceRun_of_terminal es).2]

/-- Claim C2 (code bug): transitions into `stopped` or `failed` via a child
exit resolve the `terminated` promise, and no event sequence resolves it
more than once; but aborting a service in any of the pre-start states
(`initial` through `depsStarting`) enters `stopped` WITHOUT resolving the
promise, contradicting both the spec and the source's own doc comment on
`terminated` ("Resolves as ok when this script ... never needed to start in
the first place"); indeed every genuine transition into `stopped` or
`failed` either resolves the promise or is one of these abort
transitions. -/
theorem service_terminated_resolution :
    serviceStep .initial .abort = (.stopped, false) ∧
    serviceStep .unstarted .abort = (.stopped, false) ∧
    serviceStep .depsStarting .abort = (.stopped, false) ∧
    serviceStep .stopping .childExited = (.stopped, true) ∧
    serviceStep .started .childExited = (.failed, true) ∧
    serviceStep .failing .childExited = (.failed, true) ∧
    (∀ (s : ServiceStateId) (e : ServiceEvent),
      ((serviceStep s e).1 = .stopped ∨ (serviceStep s e).1 = .failed) →
      s ≠ (serviceStep s e).1 →
      ((serviceStep s e).2 = true ∨
        (e = .abort ∧ (serviceStep s e).2 = false))) ∧
    (∀ (evs : List ServiceEvent) (s : ServiceStateId),
      (serviceRun s evs).2 ≤ 1) :=
  ⟨rfl, rfl, rfl, rfl, rfl, rfl, by decide, serviceRun_resolve_le_one⟩

/-- Witness for C2's characterization conjunct: the child-exit transition
out of `stopping` is a genuine entry into `stopped`, and it resolves the
promise. -/
theorem service_terminated_resolution_witness :
    (serviceStep .stopping .childExited).2 = true ∨
      (ServiceEvent.childExited = .abort ∧
        (serviceStep .stopping .childExited).2 = false) :=
  service_terminated_resolution.2.2.2.2.2.2.1 .stopping .childExited
    (by decide) (by decide)

/-! ## Watcher state machine (src/fingerprint.ts, watcher half, 512-963)

States are the `name` tags of `WatcherState`; the `reason` / `why` payloads
do not influence any transition.  Each handler either assigns a new state,
returns leaving the state unchanged, or throws `unexpectedState` — a throw
propagates out of the handler with the `#state` field unassigned, modelled
by `WatcherOutcome.throwUnexpected`. -/

inductive WatcherStateName
  | initial
  | watching
  | debouncing
  | running
  | queued
  | aborted
deriving DecidableEq, Repr, Fintype

inductive WatcherOutcome
  | next (s : WatcherStateName)
  | throwUnexpected
deriving DecidableEq, Repr

/-- Method `abort(why)` (lines 915-955): early-returns when already aborted,
transitions every other state except `initial` to `aborted`, and throws
`unexpectedState` in `initial`. -/
def watcherAbort : WatcherStateName → WatcherOutcome
  | .aborted => .next .aborted
  | .debouncing => .next .aborted
  | .watching => .next .aborted
  | .running => .next .aborted
  | .queued => .next .aborted
  | .initial => .throwUnexpected

/-- Handler `#fileChanged` (lines 823-872). -/
def watcherFileChanged : WatcherStateName → WatcherOutcome
  | .watching => .next .debouncing
  | .debouncing => .next .debouncing
  | .running => .next .queued
  | .queued => .next .queued
  | .aborted => .next .aborted
  | .initial => .throwUnexpected

/-- Handler `#onDebounced` (lines 653-671): only legal in `debouncing`, where it
calls `#startRun`, which transitions to `running`. -/
def watcherOnDebounced : WatcherStateName → WatcherOutcome
  | .debouncing => .next .running
  | _ => .throwUnexpected

/-- Handler `#onRunDone` (lines 781-816). -/
def watcherOnRunDone : WatcherStateName → WatcherOutcome
  | .queued => .next .debouncing
  | .running => .next .watching
  | .aborted => .next .aborted
  | _ => .throwUnexpected

/-- Handler `#startRun` (lines 673-710). -/
def watcherStartRun : WatcherStateName → WatcherOutcome
  | .initial => .next .running
  | .debouncing => .next .running
  | _ => .throwUnexpected

inductive WatcherEvent
  | fileChanged
  | debounced
  | runDone
  | startRun
  | abort
deriving DecidableEq, Repr, Fintype

def watcherStep (s : WatcherStateName) : WatcherEvent → WatcherOutcome
  | .fileChanged => watcherFileChanged s
  | .debounced => watcherOnDebounced s
  | .runDone => watcherOnRunDone s
  | .startRun => watcherStartRun s
  | .abort => watcherAbort s

/-- The state after an event: a throwing handler leaves `#state` unchanged. -/
def watcherResultState (s : WatcherStateName) (e : WatcherEvent) :
    WatcherStateName :=
  match watcherStep s e with
  | .next s' => s'
  | .throwUnexpected => s

/-- Counterexample for C6 as stated: an abort in the `initial` state throws
`unexpectedState` and leaves the watcher in `initial`, so not every state
transitions to `aborted` on shutdown. -/
theorem watcher_abort_counterexample :
    watcherAbort .initial = .throwUnexpected ∧
    watcherResultState .initial .abort = .initial := by
  exact ⟨rfl, rfl⟩

/-- Claim C6, amended: in every state except `initial`, a shutdown (abort)
event transitions the watcher to the `aborted` state (in `initial` it
throws, leaving the state unchanged), and once in `aborted` no subsequent
event — file change, debounce expiry, run completion, run start, or another
abort — leaves the `aborted` state. -/
theorem watcher_abort_spec :
    (∀ s : WatcherStateName, s ≠ .initial →
      watcherStep s .abort = .next .aborted) ∧
    watcherAbort .initial = .throwUnexpected ∧
    (∀ e : WatcherEvent, watcherResultState .aborted e = .aborted) := by
  refine ⟨?_, rfl, ?_⟩
  · decide
  · decide

/-- Witness for C6 (amended): the theorem's first conjunct applied at the
`watching` state. -/
theorem watcher_abort_spec_witness :
    watcherStep .watching .abort = .next .aborted :=
  watcher_abort_spec.1 .watching (by decide)

/-! ## GitHub Actions cache (src/caching/github-actions-cache.ts)

A network interaction resolves either to a connection error (`res.ok`
false) or to an HTTP status code.  Requests are consumed from an oracle
`responses : ℕ → CacheResponse` indexed by issue order; each operation
returns its outcome, the new `#serviceIsDown` latch, and the number of
requests it issued.  Request bodies (the `archiveLocation` of a hit, the
reserved `cacheId`) do not influence control flow and are omitted. -/

inductive CacheResponse
  | connectionError
  | status (code : ℕ)
deriving DecidableEq, Repr

/-- Helper `isOk` (lines 747-753). -/
def isOkStatus (code : ℕ) : Bool := 200 ≤ code && code < 300

/-- Method `#maybeHandleServiceDown` (lines 435-485): returns
(may-proceed, new latch).  A connection error, HTTP 429 or HTTP 503 falls
through to `this.#serviceIsDown = true; return false`; anything else
returns `true` leaving the latch unchanged. -/
def maybeHandleServiceDown (down : Bool) (r : CacheResponse) : Bool × Bool :=
  match r with
  | .connectionError => (false, true)
  | .status code =>
    if code = 429 then (false, true)
    else if code = 503 then (false, true)
    else (true, down)

/-- The responses that trip the service-down latch. -/
def isServiceDownTrigger (r : CacheResponse) : Bool :=
  match r with
  | .connectionError => true
  | .status code => if code = 429 then true else if code = 503 then true
    else false

inductive CacheGetOutcome
  | miss
  | hit
  | thrown
deriving DecidableEq, Repr

/-- Method `get` (lines 186-224): short-circuits to a miss when the latch is set;
otherwise issues one request and interprets the response. -/
def cacheGet (down : Bool) (responses : ℕ → CacheResponse) :
    CacheGetOutcome × Bool × ℕ :=
  if down then (.miss, down, 0)
  else
    let r := responses 0
    let h := maybeHandleServiceDown down r
    if !h.1 then (.miss, h.2, 1)
    else
      match r with
      | .connectionError => (.thrown, h.2, 1)
      | .status code =>
        if code = 204 then (.miss, h.2, 1)
        else if isOkStatus code then (.hit, h.2, 1)
        else (.thrown, h.2, 1)

inductive CacheSetResult
  | saved
  | notSaved
  | thrown
deriving DecidableEq, Repr

def maxChunkSize : ℕ := 32 * 1024 * 1024

def maxTarballBytes : ℕ := 10 * (1024 * 1024 * 1024)

/-- Iterations of the chunked upload while-loop (lines 319-361). -/
def numUploadChunks (bytes : ℕ) : ℕ :=
  (bytes + maxChunkSize - 1) / maxChunkSize

/-- Method `#upload`'s loop: one PATCH request per chunk; a trigger response gives
up with `false`, a non-2xx response throws, otherwise the loop continues
and finally returns `true` (modelled as `.saved` to be interpreted by the
caller). -/
def uploadChunks (responses : ℕ → CacheResponse) :
    ℕ → Bool → ℕ → CacheSetResult × Bool × ℕ
  | 0, down, idx => (.saved, down, idx)
  | n + 1, down, idx =>
    let r := responses idx
    let h := maybeHandleServiceDown down r
    if !h.1 then (.notSaved, h.2, idx + 1)
    else
      match r with
      | .connectionError => (.thrown, h.2, idx + 1)
      | .status code =>
        if isOkStatus code then uploadChunks responses n h.2 (idx + 1)
        else (.thrown, h.2, idx + 1)

/-- Method `#reserveUploadAndCommitTarball` (lines 252-296): gives up before any
request when the tarball exceeds 10 GiB; otherwise reserves (409 or a
trigger gives up, non-2xx throws), uploads all chunks, and commits. -/
def reserveUploadAndCommitTarball (down : Bool) (tarballBytes : ℕ)
    (responses : ℕ → CacheResponse) : CacheSetResult × Bool × ℕ :=
  if tarballBytes > maxTarballBytes then (.notSaved, down, 0)
  else
    let r := responses 0
    let h := maybeHandleServiceDown down r
    if !h.1 then (.notSaved, h.2, 1)
    else
      match r with
      | .connectionError => (.thrown, h.2, 1)
      | .status code =>
        if isOkStatus code then
          match uploadChunks responses (numUploadChunks tarballBytes) h.2 1 with
          | (.saved, d2, idx) =>
            let rc := responses idx
            let hc := maybeHandleServiceDown d2 rc
            if !hc.1 then (.notSaved, hc.2, idx + 1)
            else
              match rc with
              | .connectionError => (.thrown, hc.2, idx + 1)
              | .status cc =>
                if isOkStatus cc then (.saved, hc.2, idx + 1)
                else (.thrown, hc.2, idx + 1)
          | other => other
        else if code = 409 then (.notSaved, h.2, 1)
        else (.thrown, h.2, 1)

/-- Method `set` (lines 226-245): short-circuits to `false` when the latch is set,
before building the tarball or issuing any request. -/
def cacheSet (down : Bool) (tarballBytes : ℕ)
    (responses : ℕ → CacheResponse) : CacheSetResult × Bool × ℕ :=
  if down then (.notSaved, down, 0)
  else reserveUploadAndCommitTarball down tarballBytes responses

/-- Claim C9: the latch is set exactly when a request observes a connection
error, HTTP 429 or HTTP 503, and is never cleared; once set, every `get`
returns `undefined` and every `set` returns `false`, both issuing zero
network requests. -/
theorem cache_service_down_latch :
    (∀ (down : Bool) (r : CacheResponse),
      (maybeHandleServiceDown down r).2 = (down || isServiceDownTrigger r) ∧
      (maybeHandleServiceDown down r).1 = !isServiceDownTrigger r) ∧
    (∀ responses : ℕ → CacheResponse,
      cacheGet true responses = (.miss, true, 0)) ∧
    (∀ (bytes : ℕ) (responses : ℕ → CacheResponse),
      cacheSet true bytes responses = (.notSaved, true, 0)) ∧
    (∀ responses : ℕ → CacheResponse,
      (cacheGet false responses).2.1 = isServiceDownTrigger (responses 0)) ∧
    (∀ (down : Bool) (bytes : ℕ) (responses : ℕ → CacheResponse),
      down ≤ (cacheSet down bytes responses).2.1) := by
  have hhandler : ∀ (down : Bool) (r : CacheResponse),
      (maybeHandleServiceDown down r).2 = (down || isServiceDownTrigger r) ∧
      (maybeHandleServiceDown down r).1 = !isServiceDownTrigger r := by
    intro down r
    cases r with
    | connectionError => cases down <;> exact ⟨rfl, rfl⟩
    | status code =>
      by_cases h1 : code = 429
      · subst h1; cases down <;> exact ⟨rfl, rfl⟩
      · by_cases h2 : code = 503
        · subst h2; cases down <;> exact ⟨rfl, rfl⟩
        · simp [maybeHandleServiceDown, isServiceDownTrigger, h1, h2]
  refine ⟨hhandler, ?_, ?_, ?_, ?_⟩
  · intro responses; rfl
  · intro bytes responses; rfl
  · intro responses
    rcases hr : responses 0 with _ | code
    · simp [cacheGet, maybeHandleServiceDown, isServiceDownTrigger, hr]
    · by_cases h1 : code = 429
      · subst h1
        simp [cacheGet, maybeHandleServiceDown, isServiceDownTrigger, hr]
      · by_cases h2 : code = 503
        · subst h2
          simp [cacheGet, maybeHandleServiceDown, isServiceDownTrigger, hr]
        · by_cases h3 : code = 204 <;>
            by_cases h4 : isOkStatus code = true <;>
            simp [cacheGet, maybeHandleServiceDown, isServiceDownTrigger, hr,
              h1, h2, h3, h4]
  · intro down bytes responses
    cases down with
    | false => exact Bool.false_le _
    | true => simp [cacheSet]

/-- Claim C10: when the tarball is larger than 10 GiB
(`10 * 1024 * 1024 * 1024` bytes), `set` returns `false` without reserving,
uploading or committing — it issues zero network requests and leaves the
latch untouched. -/
theorem cacheSet_size_limit (down : Bool) (tarballBytes : ℕ)
    (responses : ℕ → CacheResponse)
    (h : tarballBytes > 10 * 1024 * 1024 * 1024) :
    reserveUploadAndCommitTarball down tarballBytes responses =
      (.notSaved, down, 0) ∧
    cacheSet down tarballBytes responses = (.notSaved, down, 0) := by
  have hgt : tarballBytes > maxTarballBytes := by
    simpa [maxTarballBytes] using h
  constructor
  · rw [reserveUploadAndCommitTarball, if_pos hgt]
  · cases down with
    | false =>
      show reserveUploadAndCommitTarball false tarballBytes responses = _
      rw [reserveUploadAndCommitTarball, if_pos hgt]
    | true => rfl

/-- Witness for C10: the theorem applied to an 10 GiB + 1 byte tarball with
an always-OK network. -/
theorem cacheSet_size_limit_witness :
    reserveUploadAndCommitTarball false (10 * 1024 * 1024 * 1024 + 1)
        (fun _ => .status 200) = (.notSaved, false, 0) :=
  (cacheSet_size_limit false (10 * 1024 * 1024 * 1024 + 1)
      (fun _ => .status 200) (by norm_num)).1

/-! ## Analyzer: depth-first cycle check and dependency sort
(src/analyzer.ts 574-691)

Scripts are identified by their `(packageDir, name)` reference, the key of
the analyzer's placeholder map.  The in-place mutated dependency lists are
modelled as a total function `DependencyMap` threaded through the
traversal; references with no entry simply map to `[]`.  `localeCompare`
(whose result depends on the ambient locale) is modelled as the
lexicographic order on the string's character list, and the JS stable
`Array.prototype.sort` as a stable insertion sort.  The bounded recursion
of the source (the trail grows strictly and stays inside the finite set of
placeholders) is modelled with explicit fuel; `dfs_not_fuelOut` proves the
fuel `|univ| + 1` used by the main theorem is never exhausted. -/

structure ScriptRef where
  packageDir : String
  name : String
deriving DecidableEq, Repr

/-- The sort comparator of `#checkForCyclesAndSortDependencies`:
by `packageDir`, then by `name`. -/
def refLe (a b : ScriptRef) : Prop :=
  if a.packageDir = b.packageDir then a.name.data ≤ b.name.data
  else a.packageDir.data < b.packageDir.data

instance : DecidableRel refLe := fun a b => by unfold refLe; infer_instance

theorem stringData_ne {a b : String} (h : a ≠ b) : a.data ≠ b.data :=
  fun hd => h (by cases a; cases b; exact congrArg String.mk hd)

instance : IsTotal ScriptRef refLe := by
  constructor
  intro a b
  by_cases h : a.packageDir = b.packageDir
  · rcases le_total a.name.data b.name.data with hle | hle
    · exact Or.inl (by rw [refLe, if_pos h]; exact hle)
    · exact Or.inr (by rw [refLe, if_pos h.symm]; exact hle)
  · rcases lt_or_gt_of_ne (stringData_ne h) with hlt | hlt
    · exact Or.inl (by rw [refLe, if_neg h]; exact hlt)
    · exact Or.inr (by rw [refLe, if_neg (Ne.symm h)]; exact hlt)

instance : IsTrans ScriptRef refLe := by
  constructor
  intro a b c hab hbc
  by_cases h1 : a.packageDir = b.packageDir
  · by_cases h2 : b.packageDir = c.packageDir
    · rw [refLe, if_pos h1] at hab
      rw [refLe, if_pos h2] at hbc
      rw [refLe, if_pos (h1.trans h2)]
      exact le_trans hab hbc
    · rw [refLe, if_neg h2] at hbc
      rw [refLe, if_neg (h1 ▸ h2)]
      exact h1 ▸ hbc
  · by_cases h2 : b.packageDir = c.packageDir
    · rw [refLe, if_neg h1] at hab
      rw [refLe, if_neg (fun hac => h1 (hac.trans h2.symm))]
      exact h2 ▸ hab
    · rw [refLe, if_neg h1] at hab
      rw [refLe, if_neg h2] at hbc
      by_cases h3 : a.packageDir = c.packageDir
      · exact absurd (h3 ▸ (hab.trans hbc)) (lt_irrefl _)
      · rw [refLe, if_neg h3]
        exact hab.trans hbc

/-- The per-script dependency lists (`config.dependencies`, keyed by the
placeholder map). -/
abbrev DependencyMap := ScriptRef → List ScriptRef

def sortDeps (l : List ScriptRef) : List ScriptRef :=
  l.insertionSort refLe

/-- The essence of the cycle diagnostic: the script whose re-entry was
detected, and the hop list rendered by the supplemental locations — one
`(current, next)` pair per hop, in trail order. -/
structure CycleDiag where
  script : ScriptRef
  hops : List (ScriptRef × ScriptRef)
deriving DecidableEq, Repr

/-- Consecutive pairs of a path. -/
def hopsOf (l : List ScriptRef) : List (ScriptRef × ScriptRef) :=
  l.zip l.tail

/-- Lines 580-664: `trailArray = [...trail, config]`, `cycleStart` the index
of the re-entered script in the trail (the Set holds each key once), and
one hop per `i ∈ [cycleStart, trailArray.length - 1)`. -/
def mkCycleDiag (trail : List ScriptRef) (v : ScriptRef) : CycleDiag :=
  { script := v
    hops := hopsOf ((trail ++ [v]).drop (trail.indexOf v)) }

inductive DfsResult
  | cycleFailure (diag : CycleDiag)
  | fuelOut
  | ok (deps : DependencyMap)

/-- The `for (const dependency of config.dependencies)` loop with its early
return on failure, threading the mutated dependency map. -/
def dfsList (next : DependencyMap → ScriptRef → DfsResult) :
    DependencyMap → List ScriptRef → DfsResult
  | sigma, [] => .ok sigma
  | sigma, d :: rest =>
    match next sigma d with
    | .ok sigma' => dfsList next sigma' rest
    | r => r

/-- Method `#checkForCyclesAndSortDependencies(config, trail)`: re-entry on the
trail is a cycle failure; a script with no dependencies returns at once;
otherwise its dependency list is sorted in place and the sorted
dependencies are visited depth-first with the script appended to the
trail. -/
def checkForCyclesAndSortDependencies :
    ℕ → DependencyMap → List ScriptRef → ScriptRef → DfsResult
  | 0, _, _, _ => .fuelOut
  | fuel + 1, sigma, trail, v =>
    if v ∈ trail then .cycleFailure (mkCycleDiag trail v)
    else if sigma v = [] then .ok sigma
    else
      dfsList
        (fun sigma' d =>
          checkForCyclesAndSortDependencies fuel sigma' (trail ++ [v]) d)
        (Function.update sigma v (sortDeps (sigma v))) (sortDeps (sigma v))

/-- Relation: `b` is a declared dependency of `a`. -/
def Edge (sigma : DependencyMap) (a b : ScriptRef) : Prop := b ∈ sigma a

instance (sigma : DependencyMap) : DecidableRel (Edge sigma) := fun _ _ => by
  unfold Edge; infer_instance

def Reaches (sigma : DependencyMap) : ScriptRef → ScriptRef → Prop :=
  Relation.ReflTransGen (Edge sigma)

/-- The dependency graph reachable from `root` contains a cycle. -/
def HasCycleFrom (sigma : DependencyMap) (root : ScriptRef) : Prop :=
  ∃ v w, Reaches sigma root v ∧ Edge sigma v w ∧ Reaches sigma w v

/-- Two dependency maps with the same edge relation (they differ only by
permutations of the dependency lists). -/
def SameEdges (sigma tau : DependencyMap) : Prop :=
  ∀ a b, Edge sigma a b ↔ Edge tau a b

/-- The failure condition of the trail-based search: some walk from `v`
that avoids the trail eventually re-enters the (extended) trail. -/
inductive Hits (sigma : DependencyMap) : List ScriptRef → ScriptRef → Prop
  | here {trail : List ScriptRef} {v : ScriptRef} :
      v ∈ trail → Hits sigma trail v
  | step {trail : List ScriptRef} {v w : ScriptRef} :
      v ∉ trail → Edge sigma v w → Hits sigma (trail ++ [v]) w →
      Hits sigma trail v

/-- What the claim requires of the cycle diagnostic: its hop list is the
consecutive-pairs rendering of a path of length ≥ 2 through genuine
dependency edges that starts and ends at the reported script, which is
reachable from the root. -/
def DiagDescribesCycle (sigma : DependencyMap) (root : ScriptRef)
    (diag : CycleDiag) : Prop :=
  ∃ p : List ScriptRef,
    diag.hops = hopsOf p ∧
    2 ≤ p.length ∧
    p.head? = some diag.script ∧
    p.getLast? = some diag.script ∧
    List.Chain' (Edge sigma) p ∧
    Reaches sigma root diag.script

/-! ### Permutation and edge-preservation machinery -/

theorem sameEdges_of_perm {sigma tau : DependencyMap}
    (h : ∀ a, (sigma a).Perm (tau a)) : SameEdges sigma tau :=
  fun a _ => (h a).mem_iff

theorem sameEdges_symm {sigma tau : DependencyMap}
    (h : SameEdges sigma tau) : SameEdges tau sigma :=
  fun a b => (h a b).symm

theorem sameEdges_trans {sigma tau upsilon : DependencyMap}
    (h1 : SameEdges sigma tau) (h2 : SameEdges tau upsilon) :
    SameEdges sigma upsilon :=
  fun a b => (h1 a b).trans (h2 a b)

theorem sortDeps_perm (l : List ScriptRef) : (sortDeps l).Perm l :=
  List.perm_insertionSort refLe l

theorem update_sort_perm (sigma : DependencyMap) (v : ScriptRef) :
    ∀ a, ((Function.update sigma v (sortDeps (sigma v))) a).Perm (sigma a) := by
  intro a
  by_cases hav : a = v
  · subst hav; rw [Function.update_same]; exact sortDeps_perm _
  · rw [Function.update_noteq hav]

theorem hits_congr {sigma tau : DependencyMap} (h : SameEdges sigma tau) :
    ∀ {trail : List ScriptRef} {v : ScriptRef},
      Hits sigma trail v → Hits tau trail v := by
  intro trail v hh
  induction hh with
  | here hmem => exact .here hmem
  | step hnot hedge _ ih => exact .step hnot ((h _ _).mp hedge) ih

theorem reaches_congr {sigma tau : DependencyMap} (h : SameEdges sigma tau)
    {a b : ScriptRef} : Reaches sigma a b → Reaches tau a b :=
  Relation.ReflTransGen.mono (fun x y hxy => (h x y).mp hxy)

/-! ### Generic extraction lemmas for the dependency loop -/

theorem dfsList_ok_perm {next : DependencyMap → ScriptRef → DfsResult}
    (hnext : ∀ s d s', next s d = .ok s' → ∀ a, (s' a).Perm (s a)) :
    ∀ (l : List ScriptRef) (sigma sigma' : DependencyMap),
      dfsList next sigma l = .ok sigma' → ∀ a, (sigma' a).Perm (sigma a) := by
  intro l
  induction l with
  | nil =>
    intro sigma sigma' h a
    simp only [dfsList] at h
    cases h
    exact .refl _
  | cons d rest ih =>
    intro sigma sigma' h a
    simp only [dfsList] at h
    rcases hnd : next sigma d with diag | _ | sigma1 <;> simp only [hnd] at h
    · exact DfsResult.noConfusion h
    · exact DfsResult.noConfusion h
    · exact (ih sigma1 sigma' h a).trans (hnext sigma d sigma1 hnd a)

theorem dfsList_cycle_extract {next : DependencyMap → ScriptRef → DfsResult}
    (hnext : ∀ s d s', next s d = .ok s' → ∀ a, (s' a).Perm (s a)) :
    ∀ (l : List ScriptRef) (sigma : DependencyMap) (diag : CycleDiag),
      dfsList next sigma l = .cycleFailure diag →
      ∃ d ∈ l, ∃ sa : DependencyMap,
        (∀ a, (sa a).Perm (sigma a)) ∧ next sa d = .cycleFailure diag := by
  intro l
  induction l with
  | nil =>
    intro sigma diag h
    simp only [dfsList] at h
    exact DfsResult.noConfusion h
  | cons d rest ih =>
    intro sigma diag h
    simp only [dfsList] at h
    rcases hnd : next sigma d with diag' | _ | sigma1 <;> simp only [hnd] at h
    · cases h
      exact ⟨d, by simp, sigma, fun a => .refl _, hnd⟩
    · exact DfsResult.noConfusion h
    · obtain ⟨d', hd', sa, hperm, hfail⟩ := ih sigma1 diag h
      exact ⟨d', by simp [hd'], sa,
        fun a => (hperm a).trans (hnext sigma d sigma1 hnd a), hfail⟩

theorem dfsList_fuelOut_extract {next : DependencyMap → ScriptRef → DfsResult}
    (hnext : ∀ s d s', next s d = .ok s' → ∀ a, (s' a).Perm (s a)) :
    ∀ (l : List ScriptRef) (sigma : DependencyMap),
      dfsList next sigma l = .fuelOut →
      ∃ d ∈ l, ∃ sa : DependencyMap,
        (∀ a, (sa a).Perm (sigma a)) ∧ next sa d = .fuelOut := by
  intro l
  induction l with
  | nil =>
    intro sigma h
    simp only [dfsList] at h
    exact DfsResult.noConfusion h
  | cons d rest ih =>
    intro sigma h
    simp only [dfsList] at h
    rcases hnd : next sigma d with diag' | _ | sigma1 <;> simp only [hnd] at h
    · exact DfsResult.noConfusion h
    · exact ⟨d, by simp, sigma, fun a => .refl _, hnd⟩
    · obtain ⟨d', hd', sa, hperm, hfail⟩ := ih sigma1 h
      exact ⟨d', by simp [hd'], sa,
        fun a => (hperm a).trans (hnext sigma d sigma1 hnd a), hfail⟩

theorem dfsList_ok_extract {next : DependencyMap → ScriptRef → DfsResult}
    (hnext : ∀ s d s', next s d = .ok s' → ∀ a, (s' a).Perm (s a)) :
    ∀ (l : List ScriptRef) (sigma sigma' : DependencyMap),
      dfsList next sigma l = .ok sigma' →
      ∀ d ∈ l, ∃ sa sb : DependencyMap,
        (∀ a, (sa a).Perm (sigma a)) ∧ next sa d = .ok sb := by
  intro l
  induction l with
  | nil =>
    intro sigma sigma' _ d hd
    exact absurd hd (List.not_mem_nil d)
  | cons d0 rest ih =>
    intro sigma sigma' h d hd
    simp only [dfsList] at h
    rcases hnd : next sigma d0 with diag' | _ | sigma1 <;> simp only [hnd] at h
    · exact DfsResult.noConfusion h
    · exact DfsResult.noConfusion h
    · rcases List.mem_cons.mp hd with hd0 | hdr
      · subst hd0
        exact ⟨sigma, sigma1, fun a => .refl _, hnd⟩
      · obtain ⟨sa, sb, hperm, hok⟩ := ih sigma1 sigma' h d hdr
        exact ⟨sa, sb,
          fun a => (hperm a).trans (hnext sigma d0 sigma1 hnd a), hok⟩

/-! ### Properties of the depth-first pass -/

theorem dfs_ok_perm :
    ∀ (fuel : ℕ) (sigma : DependencyMap) (trail : List ScriptRef)
      (v : ScriptRef) (sigma' : DependencyMap),
      checkForCyclesAndSortDependencies fuel sigma trail v = .ok sigma' →
      ∀ a, (sigma' a).Perm (sigma a) := by
  intro fuel
  induction fuel with
  | zero => intro _ _ _ _ h; exact DfsResult.noConfusion h
  | succ fuel ih =>
    intro sigma trail v sigma' h a
    rw [checkForCyclesAndSortDependencies] at h
    by_cases hv : v ∈ trail
    · rw [if_pos hv] at h; exact DfsResult.noConfusion h
    rw [if_neg hv] at h
    by_cases hnil : sigma v = []
    · rw [if_pos hnil] at h; cases h; exact .refl _
    rw [if_neg hnil] at h
    have hperm := dfsList_ok_perm
      (fun s d s' hnd => ih s (trail ++ [v]) d s' hnd) _ _ _ h a
    exact hperm.trans (update_sort_perm sigma v a)

theorem dfs_cycle_hits :
    ∀ (fuel : ℕ) (sigma : DependencyMap) (trail : List ScriptRef)
      (v : ScriptRef) (diag : CycleDiag),
      checkForCyclesAndSortDependencies fuel sigma trail v =
        .cycleFailure diag →
      Hits sigma trail v := by
  intro fuel
  induction fuel with
  | zero => intro _ _ _ _ h; exact DfsResult.noConfusion h
  | succ fuel ih =>
    intro sigma trail v diag h
    rw [checkForCyclesAndSortDependencies] at h
    by_cases hv : v ∈ trail
    · exact .here hv
    rw [if_neg hv] at h
    by_cases hnil : sigma v = []
    · rw [if_pos hnil] at h; exact DfsResult.noConfusion h
    rw [if_neg hnil] at h
    obtain ⟨d, hd, sa, hperm, hfail⟩ := dfsList_cycle_extract
      (fun s dd s' hnd => dfs_ok_perm fuel s (trail ++ [v]) dd s' hnd) _ _ _ h
    have hedge : Edge sigma v d := by
      have : d ∈ sigma v := (sortDeps_perm (sigma v)).mem_iff.mp hd
      exact this
    have hse : SameEdges sa sigma :=
      sameEdges_trans (sameEdges_of_perm hperm)
        (sameEdges_of_perm (update_sort_perm sigma v))
    exact .step hv hedge (hits_congr hse (ih sa (trail ++ [v]) d diag hfail))

theorem dfs_ok_not_hits :
    ∀ (fuel : ℕ) (sigma : DependencyMap) (trail : List ScriptRef)
      (v : ScriptRef) (sigma' : DependencyMap),
      checkForCyclesAndSortDependencies fuel sigma trail v = .ok sigma' →
      ¬Hits sigma trail v := by
  intro fuel
  induction fuel with
  | zero => intro _ _ _ _ h; exact absurd h (fun hh => DfsResult.noConfusion hh)
  | succ fuel ih =>
    intro sigma trail v sigma' h hhits
    rw [checkForCyclesAndSortDependencies] at h
    by_cases hv : v ∈ trail
    · rw [if_pos hv] at h; exact DfsResult.noConfusion h
    rw [if_neg hv] at h
    cases hhits with
    | here hmem => exact hv hmem
    | step hnot hedge hh =>
      rename_i w
      by_cases hnil : sigma v = []
      · rw [Edge, hnil] at hedge
        exact absurd hedge (List.not_mem_nil w)
      rw [if_neg hnil] at h
      have hw : w ∈ sortDeps (sigma v) :=
        (sortDeps_perm (sigma v)).mem_iff.mpr hedge
      obtain ⟨sa, sb, hperm, hok⟩ := dfsList_ok_extract
        (fun s dd s' hnd => dfs_ok_perm fuel s (trail ++ [v]) dd s' hnd) _ _ _ h w hw
      have hse : SameEdges sigma sa :=
        sameEdges_symm (sameEdges_trans (sameEdges_of_perm hperm)
          (sameEdges_of_perm (update_sort_perm sigma v)))
      exact ih sa (trail ++ [v]) w sb hok (hits_congr hse hh)

/-- All dependency-list entries belong to the placeholder universe. -/
def ClosedUnder (univ : List ScriptRef) (sigma : DependencyMap) : Prop :=
  ∀ a, ∀ b ∈ sigma a, b ∈ univ

theorem closedUnder_of_perm {univ : List ScriptRef}
    {sigma tau : DependencyMap} (h : ∀ a, (sigma a).Perm (tau a))
    (hc : ClosedUnder univ tau) : ClosedUnder univ sigma :=
  fun a b hb => hc a b ((h a).mem_iff.mp hb)

theorem nodup_length_le {l l2 : List ScriptRef} (h : l.Nodup)
    (hs : ∀ x ∈ l, x ∈ l2) : l.length ≤ l2.length := by
  calc l.length = l.toFinset.card := (List.toFinset_card_of_nodup h).symm
    _ ≤ l2.toFinset.card := by
        apply Finset.card_le_card
        intro x hx
        rw [List.mem_toFinset] at hx ⊢
        exact hs x hx
    _ ≤ l2.length := List.toFinset_card_le l2

theorem dfs_not_fuelOut (univ : List ScriptRef) :
    ∀ (fuel : ℕ) (sigma : DependencyMap) (trail : List ScriptRef)
      (v : ScriptRef),
      ClosedUnder univ sigma → trail.Nodup → (∀ x ∈ trail, x ∈ univ) →
      v ∈ univ → univ.length + 1 ≤ fuel + trail.length →
      checkForCyclesAndSortDependencies fuel sigma trail v ≠ .fuelOut := by
  intro fuel
  induction fuel with
  | zero =>
    intro sigma trail v _ hnd hsub _ hle
    exfalso
    have := nodup_length_le hnd hsub
    omega
  | succ fuel ih =>
    intro sigma trail v hc hnd hsub hv hle h
    rw [checkForCyclesAndSortDependencies] at h
    by_cases hvt : v ∈ trail
    · rw [if_pos hvt] at h; exact DfsResult.noConfusion h
    rw [if_neg hvt] at h
    by_cases hnil : sigma v = []
    · rw [if_pos hnil] at h; exact DfsResult.noConfusion h
    rw [if_neg hnil] at h
    obtain ⟨d, hd, sa, hperm, hfo⟩ := dfsList_fuelOut_extract
      (fun s dd s' hnd' => dfs_ok_perm fuel s (trail ++ [v]) dd s' hnd') _ _ h
    have hcu : ClosedUnder univ (Function.update sigma v
        (sortDeps (sigma v))) := by
      intro a b hb
      by_cases hav : a = v
      · rw [hav, Function.update_same] at hb
        exact hc v b ((sortDeps_perm (sigma v)).mem_iff.mp hb)
      · rw [Function.update_noteq hav] at hb
        exact hc a b hb
    refine ih sa (trail ++ [v]) d (closedUnder_of_perm hperm hcu) ?_ ?_ ?_ ?_
      hfo
    · simp [List.nodup_append, hnd, hvt]
    · intro x hx
      rcases List.mem_append.mp hx with hx | hx
      · exact hsub x hx
      · have : x = v := by simpa using hx
        subst this; exact hv
    · exact hc v d ((sortDeps_perm (sigma v)).mem_iff.mp hd)
    · rw [List.length_append, List.length_singleton]
      omega

/-! ### From `Hits` to cycles and back -/

theorem hits_to_cycle (sigma : DependencyMap) :
    ∀ (trail : List ScriptRef) (v : ScriptRef), Hits sigma trail v →
      (∃ u ∈ trail, Reaches sigma v u) ∨ HasCycleFrom sigma v := by
  intro trail v h
  induction h with
  | here hmem => exact Or.inl ⟨_, hmem, .refl⟩
  | @step T0 x0 w0 hnot hedge _ ih =>
    rcases ih with ⟨u, hu, hr⟩ | ⟨a, w2, h1, h2, h3⟩
    · rcases List.mem_append.mp hu with hu1 | hu2
      · exact Or.inl ⟨u, hu1, Relation.ReflTransGen.head hedge hr⟩
      · have huv : u = x0 := by simpa using hu2
        subst huv
        exact Or.inr ⟨u, w0, .refl, hedge, hr⟩
    · exact Or.inr ⟨a, w2, Relation.ReflTransGen.head hedge h1, h2, h3⟩

theorem hits_of_reaches_mem (sigma : DependencyMap) :
    ∀ {w u : ScriptRef}, Reaches sigma w u →
      ∀ trail : List ScriptRef, u ∈ trail → Hits sigma trail w := by
  intro w u h
  induction h using Relation.ReflTransGen.head_induction_on with
  | refl => intro trail hu; exact .here hu
  | @head x c hedge hrest ih =>
    intro trail hu
    by_cases hx : x ∈ trail
    · exact .here hx
    · exact .step hx hedge (ih (trail ++ [x]) (List.mem_append_left _ hu))

theorem reaches_cycle_hits (sigma : DependencyMap) {v u w : ScriptRef}
    (hr : Reaches sigma v u) (hedge : Edge sigma u w)
    (hcyc : Reaches sigma w u) :
    ∀ trail : List ScriptRef, Hits sigma trail v := by
  induction hr using Relation.ReflTransGen.head_induction_on with
  | refl =>
    intro trail
    by_cases hu : u ∈ trail
    · exact .here hu
    · exact .step hu hedge
        (hits_of_reaches_mem sigma hcyc (trail ++ [u]) (by simp))
  | @head x c hedge' hrest ih =>
    intro trail
    by_cases hx : x ∈ trail
    · exact .here hx
    · exact .step hx hedge' (ih (trail ++ [x]))

theorem hasCycle_hits {sigma : DependencyMap} {root : ScriptRef}
    (h : HasCycleFrom sigma root) : Hits sigma [] root := by
  obtain ⟨u, w, hru, hedge, hcyc⟩ := h
  exact reaches_cycle_hits sigma hru hedge hcyc []

/-! ### The cycle diagnostic describes the cycle -/

theorem mkCycleDiag_describes (sigma0 : DependencyMap) (root : ScriptRef)
    {trail : List ScriptRef} {v : ScriptRef} (hv : v ∈ trail)
    (hchain : List.Chain' (Edge sigma0) (trail ++ [v]))
    (hhead : (trail ++ [v]).head? = some root) :
    DiagDescribesCycle sigma0 root (mkCycleDiag trail v) := by
  have hidx : trail.indexOf v < trail.length := List.indexOf_lt_length.mpr hv
  have hdropeq : (trail ++ [v]).drop (trail.indexOf v) =
      trail.drop (trail.indexOf v) ++ [v] := by
    rw [List.drop_append_eq_append_drop,
      Nat.sub_eq_zero_of_le (le_of_lt hidx), List.drop_zero]
  refine ⟨(trail ++ [v]).drop (trail.indexOf v), rfl, ?_, ?_, ?_, ?_, ?_⟩
  · rw [hdropeq, List.length_append, List.length_singleton, List.length_drop]
    omega
  · show ((trail ++ [v]).drop (trail.indexOf v)).head? = some v
    rw [List.head?_drop, List.getElem?_append, if_pos hidx,
      List.getElem?_eq_getElem hidx, List.getElem_indexOf hidx]
  · show ((trail ++ [v]).drop (trail.indexOf v)).getLast? = some v
    rw [hdropeq, List.getLast?_concat]
  · exact hchain.suffix (List.drop_suffix _ _)
  · show Reaches sigma0 root v
    obtain ⟨t, ht⟩ := List.head?_eq_some_iff.mp hhead
    have hch : List.Chain (Edge sigma0) root t := by
      have hc := hchain
      rw [ht] at hc
      exact hc
    have hlast : (root :: t).getLast (List.cons_ne_nil _ _) = v := by
      have h1 : (trail ++ [v]).getLast? = some v := List.getLast?_concat _
      rw [ht, List.getLast?_eq_getLast _ (List.cons_ne_nil _ _)] at h1
      exact (Option.some_injective _ h1.symm).symm
    exact List.relationReflTransGen_of_exists_chain t hch hlast

theorem dfs_cycle_diag (sigma0 : DependencyMap) (root : ScriptRef) :
    ∀ (fuel : ℕ) (sigma : DependencyMap) (trail : List ScriptRef)
      (v : ScriptRef) (diag : CycleDiag),
      SameEdges sigma sigma0 →
      List.Chain' (Edge sigma0) (trail ++ [v]) →
      (trail ++ [v]).head? = some root →
      checkForCyclesAndSortDependencies fuel sigma trail v =
        .cycleFailure diag →
      DiagDescribesCycle sigma0 root diag := by
  intro fuel
  induction fuel with
  | zero => intro _ _ _ _ _ _ _ h; exact DfsResult.noConfusion h
  | succ fuel ih =>
    intro sigma trail v diag hse hchain hhead h
    rw [checkForCyclesAndSortDependencies] at h
    by_cases hv : v ∈ trail
    · rw [if_pos hv] at h
      cases h
      exact mkCycleDiag_describes sigma0 root hv hchain hhead
    rw [if_neg hv] at h
    by_cases hnil : sigma v = []
    · rw [if_pos hnil] at h; exact DfsResult.noConfusion h
    rw [if_neg hnil] at h
    obtain ⟨d, hd, sa, hperm, hfail⟩ := dfsList_cycle_extract
      (fun s dd s' hnd => dfs_ok_perm fuel s (trail ++ [v]) dd s' hnd) _ _ _ h
    have hedge0 : Edge sigma0 v d :=
      (hse v d).mp ((sortDeps_perm (sigma v)).mem_iff.mp hd)
    have hse' : SameEdges sa sigma0 :=
      sameEdges_trans (sameEdges_trans (sameEdges_of_perm hperm)
        (sameEdges_of_perm (update_sort_perm sigma v))) hse
    have hchain' : List.Chain' (Edge sigma0) ((trail ++ [v]) ++ [d]) := by
      refine List.Chain'.append hchain (List.chain'_singleton d) ?_
      intro x hx y hy
      rw [List.getLast?_concat] at hx
      have hxv : v = x := by simpa using hx
      have hyd : d = y := by simpa using hy
      rw [← hxv, ← hyd]
      exact hedge0
    have hhead' : ((trail ++ [v]) ++ [d]).head? = some root := by
      rw [List.head?_append, hhead]
      rfl
    exact ih sa (trail ++ [v]) d diag hse' hchain' hhead' hfail

/-! ### Sortedness after a successful pass -/

theorem sortDeps_sorted (l : List ScriptRef) :
    List.Sorted refLe (sortDeps l) :=
  List.sorted_insertionSort refLe l

theorem dfsList_sorted_pres {next : DependencyMap → ScriptRef → DfsResult}
    (hnext : ∀ s d s', next s d = .ok s' →
      ∀ u, List.Sorted refLe (s u) → List.Sorted refLe (s' u)) :
    ∀ (l : List ScriptRef) (sigma sigma' : DependencyMap),
      dfsList next sigma l = .ok sigma' →
      ∀ u, List.Sorted refLe (sigma u) → List.Sorted refLe (sigma' u) := by
  intro l
  induction l with
  | nil =>
    intro sigma sigma' h u hs
    simp only [dfsList] at h
    cases h
    exact hs
  | cons d rest ih =>
    intro sigma sigma' h u hs
    simp only [dfsList] at h
    rcases hnd : next sigma d with _ | _ | sigma1 <;> simp only [hnd] at h
    · exact DfsResult.noConfusion h
    · exact DfsResult.noConfusion h
    · exact ih sigma1 sigma' h u (hnext sigma d sigma1 hnd u hs)

theorem dfs_sorted_pres :
    ∀ (fuel : ℕ) (sigma : DependencyMap) (trail : List ScriptRef)
      (v : ScriptRef) (sigma' : DependencyMap),
      checkForCyclesAndSortDependencies fuel sigma trail v = .ok sigma' →
      ∀ u, List.Sorted refLe (sigma u) → List.Sorted refLe (sigma' u) := by
  intro fuel
  induction fuel with
  | zero => intro _ _ _ _ h; exact DfsResult.noConfusion h
  | succ fuel ih =>
    intro sigma trail v sigma' h u hs
    rw [checkForCyclesAndSortDependencies] at h
    by_cases hv : v ∈ trail
    · rw [if_pos hv] at h; exact DfsResult.noConfusion h
    rw [if_neg hv] at h
    by_cases hnil : sigma v = []
    · rw [if_pos hnil] at h; cases h; exact hs
    rw [if_neg hnil] at h
    refine dfsList_sorted_pres
      (fun s dd s' hnd => ih s (trail ++ [v]) dd s' hnd) _ _ _ h u ?_
    by_cases huv : u = v
    · rw [huv, Function.update_same]; exact sortDeps_sorted _
    · rw [Function.update_noteq huv]; exact hs

theorem dfsList_establish {next : DependencyMap → ScriptRef → DfsResult}
    (hperm : ∀ s d s', next s d = .ok s' → ∀ a, (s' a).Perm (s a))
    (hpres : ∀ s d s', next s d = .ok s' →
      ∀ u, List.Sorted refLe (s u) → List.Sorted refLe (s' u))
    (hest : ∀ s d s', next s d = .ok s' →
      ∀ u, Reaches s d u → List.Sorted refLe (s' u)) :
    ∀ (l : List ScriptRef) (sigma sigma' : DependencyMap),
      dfsList next sigma l = .ok sigma' →
      ∀ d ∈ l, ∀ u, Reaches sigma d u → List.Sorted refLe (sigma' u) := by
  intro l
  induction l with
  | nil =>
    intro sigma sigma' _ d hd
    exact absurd hd (List.not_mem_nil d)
  | cons d0 rest ih =>
    intro sigma sigma' h d hd u hr
    simp only [dfsList] at h
    rcases hnd : next sigma d0 with _ | _ | sigma1 <;> simp only [hnd] at h
    · exact DfsResult.noConfusion h
    · exact DfsResult.noConfusion h
    · rcases List.mem_cons.mp hd with hd0 | hdr
      · subst hd0
        exact dfsList_sorted_pres hpres rest sigma1 sigma' h u
          (hest sigma d sigma1 hnd u hr)
      · have hse : SameEdges sigma sigma1 :=
          sameEdges_symm (sameEdges_of_perm (hperm sigma d0 sigma1 hnd))
        exact ih sigma1 sigma' h d hdr u (reaches_congr hse hr)

theorem dfs_ok_sorted :
    ∀ (fuel : ℕ) (sigma : DependencyMap) (trail : List ScriptRef)
      (v : ScriptRef) (sigma' : DependencyMap),
      checkForCyclesAndSortDependencies fuel sigma trail v = .ok sigma' →
      ∀ u, Reaches sigma v u → List.Sorted refLe (sigma' u) := by
  intro fuel
  induction fuel with
  | zero => intro _ _ _ _ h; exact DfsResult.noConfusion h
  | succ fuel ih =>
    intro sigma trail v sigma' h u hr
    rw [checkForCyclesAndSortDependencies] at h
    by_cases hv : v ∈ trail
    · rw [if_pos hv] at h; exact DfsResult.noConfusion h
    rw [if_neg hv] at h
    by_cases hnil : sigma v = []
    · rw [if_pos hnil] at h
      cases h
      rcases hr.cases_head with heq | ⟨c, hc, _⟩
      · rw [← heq, hnil]; exact List.sorted_nil
      · rw [Edge, hnil] at hc
        exact absurd hc (List.not_mem_nil c)
    rw [if_neg hnil] at h
    rcases hr.cases_head with heq | ⟨c, hc, hcu⟩
    · have h1 : List.Sorted refLe
          ((Function.update sigma v (sortDeps (sigma v))) v) := by
        rw [Function.update_same]; exact sortDeps_sorted _
      have := dfsList_sorted_pres
        (fun s dd s' hnd => dfs_sorted_pres fuel s (trail ++ [v]) dd s' hnd)
        _ _ _ h v h1
      rw [← heq]
      exact this
    · have hcs : c ∈ sortDeps (sigma v) :=
        (sortDeps_perm (sigma v)).mem_iff.mpr hc
      have hse : SameEdges sigma
          (Function.update sigma v (sortDeps (sigma v))) :=
        sameEdges_symm (sameEdges_of_perm (update_sort_perm sigma v))
      exact dfsList_establish
        (fun s dd s' hnd => dfs_ok_perm fuel s (trail ++ [v]) dd s' hnd)
        (fun s dd s' hnd => dfs_sorted_pres fuel s (trail ++ [v]) dd s' hnd)
        (fun s dd s' hnd => ih s (trail ++ [v]) dd s' hnd)
        _ _ _ h c hcs u (reaches_congr hse hcu)

/-- Claim C4: starting from the root with an empty trail (and enough fuel
for the finite placeholder universe, which `dfs_not_fuelOut` shows is never
exhausted), the depth-first pass fails with a cycle diagnostic iff the
dependency graph reachable from the root has a cycle; the diagnostic's hop
list walks the cycle itself, hop by hop, from the re-entered script back to
it; when there is no cycle the pass succeeds, and on success every
reachable script's dependency list is sorted by (packageDir, name) and is a
permutation of the original. -/
theorem analyzer_cycle_check (sigma : DependencyMap) (univ : List ScriptRef)
    (root : ScriptRef) (hroot : root ∈ univ)
    (hclosed : ClosedUnder univ sigma) :
    ((∃ diag, checkForCyclesAndSortDependencies (univ.length + 1) sigma []
        root = .cycleFailure diag) ↔ HasCycleFrom sigma root) ∧
    (∀ diag, checkForCyclesAndSortDependencies (univ.length + 1) sigma []
        root = .cycleFailure diag → DiagDescribesCycle sigma root diag) ∧
    (¬HasCycleFrom sigma root →
      ∃ sigma', checkForCyclesAndSortDependencies (univ.length + 1) sigma []
        root = .ok sigma') ∧
    (∀ sigma', checkForCyclesAndSortDependencies (univ.length + 1) sigma []
        root = .ok sigma' →
      (∀ u, Reaches sigma root u → List.Sorted refLe (sigma' u)) ∧
      (∀ a, (sigma' a).Perm (sigma a))) := by
  have hfail : ∀ diag, checkForCyclesAndSortDependencies (univ.length + 1)
      sigma [] root = .cycleFailure diag → HasCycleFrom sigma root := by
    intro diag h
    have hhits := dfs_cycle_hits _ _ _ _ _ h
    rcases hits_to_cycle sigma [] root hhits with ⟨u, hu, _⟩ | hcyc
    · exact absurd hu (List.not_mem_nil u)
    · exact hcyc
  refine ⟨⟨?_, ?_⟩, ?_, ?_, ?_⟩
  · rintro ⟨diag, h⟩
    exact hfail diag h
  · intro hcyc
    have hhits := hasCycle_hits hcyc
    rcases hres : checkForCyclesAndSortDependencies (univ.length + 1) sigma
      [] root with diag | _ | sigma'
    · exact ⟨diag, rfl⟩
    · exact absurd hres (dfs_not_fuelOut univ _ _ _ _ hclosed
        List.nodup_nil (by simp) hroot (by simp))
    · exact absurd hhits (dfs_ok_not_hits _ _ _ _ _ hres)
  · intro diag h
    exact dfs_cycle_diag sigma root _ sigma [] root diag
      (fun a b => Iff.rfl) (by simp [List.chain'_singleton])
      rfl h
  · intro hnc
    rcases hres : checkForCyclesAndSortDependencies (univ.length + 1) sigma
      [] root with diag | _ | sigma'
    · exact absurd (hfail diag hres) hnc
    · exact absurd hres (dfs_not_fuelOut univ _ _ _ _ hclosed
        List.nodup_nil (by simp) hroot (by simp))
    · exact ⟨sigma', rfl⟩
  · intro sigma' h
    exact ⟨fun u hu => dfs_ok_sorted _ _ _ _ _ h u hu,
      dfs_ok_perm _ _ _ _ _ h⟩

def refA : ScriptRef := ⟨"/pkg", "a"⟩

def refB : ScriptRef := ⟨"/pkg", "b"⟩

/-- The two-script cycle `a → b → a`. -/
def cycleGraph : DependencyMap := fun r =>
  if r = refA then [refB] else if r = refB then [refA] else []

/-- Witness for C4: the theorem applied to the concrete cycle `a → b → a`,
with its hypotheses discharged there; the pass reports a cycle failure. -/
theorem analyzer_cycle_check_witness :
    ∃ diag, checkForCyclesAndSortDependencies 3 cycleGraph [] refA =
      .cycleFailure diag := by
  have hclosed : ClosedUnder [refA, refB] cycleGraph := by
    intro a b hb
    unfold cycleGraph at hb
    by_cases h1 : a = refA
    · rw [if_pos h1] at hb
      have : b = refB := by simpa using hb
      simp [this]
    · rw [if_neg h1] at hb
      by_cases h2 : a = refB
      · rw [if_pos h2] at hb
        have : b = refA := by simpa using hb
        simp [this]
      · rw [if_neg h2] at hb
        exact absurd hb (List.not_mem_nil b)
  have hcyc : HasCycleFrom cycleGraph refA := by
    refine ⟨refA, refB, .refl, ?_, Relation.ReflTransGen.single ?_⟩
    · show refB ∈ cycleGraph refA
      unfold cycleGraph
      rw [if_pos rfl]
      simp
    · show refA ∈ cycleGraph refB
      unfold cycleGraph
      rw [if_neg (by decide), if_pos rfl]
      simp
  have h3 : [refA, refB].length + 1 = 3 := rfl
  exact h3 ▸ ((analyzer_cycle_check cycleGraph [refA, refB] refA
    (by simp) hclosed).1.mpr hcyc)

end Wireit
